import Mathlib

/-!
Verification development for the hikka-tl rich-text codec
(src/hikkatl/extensions/html.py): conversion between an HTML-like markup
string and a flat text plus a list of positioned message entities, with all
offsets and lengths counted in UTF-16 code units.

Modelling conventions:
* a Python string is a list of Unicode code points (Nat);
* the UTF-16-LE byte buffer produced by str.encode("utf-16-le") is a list of
  byte values (Nat), two bytes per code unit, low byte first;
* fallible operations (UnicodeDecodeError, KeyError, TypeError, ValueError)
  return Option, with none standing for a raised exception;
* the recursive unparser is embedded with an explicit fuel argument so that it
  is structurally recursive; the wrapper supplies fuel larger than the entity
  list length, which is always sufficient because every recursive call (both
  the nested call on the filtered child list and the loop continuation) uses a
  strictly shorter entity list.
-/

namespace HikkaTL

/-- Code points of a Lean string literal, used to write concrete Python
string values in the model. -/
def strCodes (s : String) : List Nat :=
  s.data.map Char.toNat

/-- High half of the UTF-16 surrogate pair of a scalar value above U+FFFF. -/
def highSurr (c : Nat) : Nat := 0xD800 + (c - 0x10000) / 0x400

/-- Low half of the UTF-16 surrogate pair of a scalar value above U+FFFF. -/
def lowSurr (c : Nat) : Nat := 0xDC00 + (c - 0x10000) % 0x400

/-- UTF-16 code units of one scalar value: a single unit at or below U+FFFF,
a surrogate pair above. -/
def utf16Units (c : Nat) : List Nat :=
  if c < 0x10000 then [c] else [highSurr c, lowSurr c]

/-- Embedding of html.py lines 23-27, the per-code-point surrogate encoder
used before parsing: a code point in the astral range becomes its
high-then-low surrogate pair, everything else passes through. -/
def add_surrogate (s : List Nat) : List Nat :=
  s.flatMap fun c =>
    if 0x10000 ≤ c ∧ c ≤ 0x10FFFF then [highSurr c, lowSurr c] else [c]

/-- Strict pairing pass of the Python UTF-16 decoder: a high surrogate must
be followed by a low surrogate and combines with it into one scalar, an
unpaired surrogate raises (none), everything else passes through. -/
def unitsDecode : List Nat → Option (List Nat)
  | [] => some []
  | [u] =>
    if 0xD800 ≤ u ∧ u ≤ 0xDFFF then none
    else some [u]
  | u :: l :: rest =>
    if 0xD800 ≤ u ∧ u ≤ 0xDBFF then
      if 0xDC00 ≤ l ∧ l ≤ 0xDFFF then
        (unitsDecode rest).map fun s =>
          (0x10000 + (u - 0xD800) * 0x400 + (l - 0xDC00)) :: s
      else none
    else if 0xDC00 ≤ u ∧ u ≤ 0xDFFF then none
    else (unitsDecode (l :: rest)).map fun s => u :: s

/-- Embedding of html.py lines 30-31: text.encode("utf-16", "surrogatepass")
followed by a strict decode, which recombines surrogate pairs into scalars
and raises (none) on an unpaired surrogate. -/
def del_surrogate (s : List Nat) : Option (List Nat) :=
  unitsDecode s

/-- Little-endian byte pair of one UTF-16 code unit. -/
def unitBytes (u : Nat) : List Nat := [u % 256, u / 256]

/-- Embedding of TextDecoration._add_surrogates (html.py lines 244-246):
text.encode("utf-16-le"), two bytes per code unit, low byte first. -/
def add_surrogates (s : List Nat) : List Nat :=
  (s.flatMap utf16Units).flatMap unitBytes

/-- Byte-pairing pass of bytes.decode("utf-16-le"): consecutive byte pairs
become code units; a trailing odd byte raises (none). -/
def bytesToUnits : List Nat → Option (List Nat)
  | [] => some []
  | [_] => none
  | b0 :: b1 :: rest => (bytesToUnits rest).map fun us => (b0 + 256 * b1) :: us

/-- Embedding of TextDecoration._remove_surrogates (html.py lines 248-250):
bytes.decode("utf-16-le"); none models a raised UnicodeDecodeError. -/
def remove_surrogates (bs : List Nat) : Option (List Nat) :=
  (bytesToUnits bs).bind unitsDecode

/-- The entity kinds of the dispatch table, with their variant fields.
The other constructor stands for any further MessageEntity variant, which
apply_entity renders through the quote fallback. -/
inductive EntityKind : Type
  | bold
  | italic
  | spoiler
  | code
  | underline
  | strike
  | blockquote
  | pre (language : List Nat)
  | email
  | url
  | textUrl (url : List Nat)
  | mentionName (user_id : Nat)
  | customEmoji (document_id : Nat)
  | other
deriving DecidableEq

/-- A message entity: kind plus offset and length in UTF-16 code units. -/
structure MessageEntity : Type where
  kind : EntityKind
  offset : Nat
  length : Nat
deriving DecidableEq

/-- Embedding of html.py line 148: the process-wide custom-emoji flag. -/
def CUSTOM_EMOJIS : Bool := true

/-- Decimal digits of a natural number, as code points. -/
def natStr (n : Nat) : List Nat :=
  (Nat.repr n).data.map Char.toNat

/-- Per-character form of html.escape(value, quote=False): replaces the
ampersand, less-than and greater-than signs and nothing else. -/
def escape_char (c : Nat) : List Nat :=
  if c = 38 then strCodes "&amp;"
  else if c = 60 then strCodes "&lt;"
  else if c = 62 then strCodes "&gt;"
  else [c]

/-- Embedding of HtmlDecoration.quote (html.py lines 325-326):
html.escape(value, quote=False). -/
def quote (s : List Nat) : List Nat :=
  s.flatMap escape_char

/-- Remainder of a string after a literal pattern, none when the pattern is
not a leading segment. -/
def afterLit : List Nat → List Nat → Option (List Nat)
  | [], s => some s
  | _ :: _, [] => none
  | a :: p, b :: s => if a = b then afterLit p s else none

/-- Leading run of ASCII decimal digits: its length and the remainder. -/
def digitSpan : List Nat → Nat × List Nat
  | [] => (0, [])
  | c :: rest =>
    if 48 ≤ c ∧ c ≤ 57 then
      let r := digitSpan rest
      (r.1 + 1, r.2)
    else (0, c :: rest)

/-- Tail matcher for the emoji placeholder pattern: any run of characters
other than a less-than sign, then the literal closing tag, which must end
the string or be followed only by one final newline (the dollar anchor of
the Python pattern also matches just before a trailing newline). -/
def emojiTail : List Nat → Bool
  | [] => false
  | c :: rest =>
    if c = 60 then
      decide (c :: rest = strCodes "</emoji>" ∨ c :: rest = strCodes "</emoji>\n")
    else emojiTail rest

/-- Embedding of the guard regex in apply_entity (html.py line 171), which
recognizes a complete custom-emoji placeholder so that wrapping decorations
leave it untouched. The digit class is modelled as ASCII digits. -/
def emojiMatch (s : List Nat) : Bool :=
  match afterLit (strCodes "<emoji document_id=") s with
  | none => false
  | some r =>
    let r1 := match r with
      | 34 :: t => t
      | t => t
    let d := digitSpan r1
    if d.1 = 0 then false
    else
      let r3 := match d.2 with
        | 34 :: t => t
        | t => t
      match r3 with
      | 62 :: r4 => emojiTail r4
      | _ => false

/-- Embedding of HtmlDecoration.link (html.py lines 298-299). -/
def link (value lnk : List Nat) : List Nat :=
  strCodes "<a href=\"" ++ lnk ++ strCodes "\">" ++ value ++ strCodes "</a>"

/-- Embedding of HtmlDecoration.bold (html.py lines 301-302). -/
def bold (value : List Nat) : List Nat :=
  strCodes "<b>" ++ value ++ strCodes "</b>"

/-- Embedding of HtmlDecoration.italic (html.py lines 304-305). -/
def italic (value : List Nat) : List Nat :=
  strCodes "<i>" ++ value ++ strCodes "</i>"

/-- Embedding of HtmlDecoration.spoiler (html.py lines 307-308). -/
def spoiler (value : List Nat) : List Nat :=
  strCodes "<tg-spoiler>" ++ value ++ strCodes "</tg-spoiler>"

/-- Embedding of HtmlDecoration.code (html.py lines 310-311). -/
def codeDeco (value : List Nat) : List Nat :=
  strCodes "<code>" ++ value ++ strCodes "</code>"

/-- Embedding of HtmlDecoration.pre (html.py lines 313-314). -/
def preDeco (value : List Nat) : List Nat :=
  strCodes "<pre>" ++ value ++ strCodes "</pre>"

/-- Embedding of HtmlDecoration.pre_language (html.py lines 316-317). -/
def pre_language (value language : List Nat) : List Nat :=
  strCodes "<pre><code class=\"language-" ++ language ++ strCodes "\">"
    ++ value ++ strCodes "</code></pre>"

/-- Embedding of HtmlDecoration.underline (html.py lines 319-320). -/
def underline (value : List Nat) : List Nat :=
  strCodes "<u>" ++ value ++ strCodes "</u>"

/-- Embedding of HtmlDecoration.strikethrough (html.py lines 322-323). -/
def strikethrough (value : List Nat) : List Nat :=
  strCodes "<s>" ++ value ++ strCodes "</s>"

/-- Embedding of HtmlDecoration.blockquote (html.py lines 328-329). -/
def blockquoteDeco (value : List Nat) : List Nat :=
  strCodes "<blockquote>" ++ value ++ strCodes "</blockquote>"

/-- Embedding of HtmlDecoration.custom_emoji (html.py lines 331-332). -/
def custom_emoji (value : List Nat) (document_id : Nat) : List Nat :=
  strCodes "<emoji document_id=" ++ natStr document_id ++ strCodes ">"
    ++ value ++ strCodes "</emoji>"

/-- Embedding of TextDecoration.apply_entity (html.py lines 154-192) for the
HtmlDecoration renderer: the seven mapped kinds first pass the emoji
placeholder guard, the link-like kinds build their targets, the custom-emoji
kind checks the feature flag, and every other kind falls back to quote. -/
def apply_entity (e : MessageEntity) (text : List Nat) : List Nat :=
  match e.kind with
  | .bold => if emojiMatch text then text else bold text
  | .italic => if emojiMatch text then text else italic text
  | .spoiler => if emojiMatch text then text else spoiler text
  | .code => if emojiMatch text then text else codeDeco text
  | .underline => if emojiMatch text then text else underline text
  | .strike => if emojiMatch text then text else strikethrough text
  | .blockquote => if emojiMatch text then text else blockquoteDeco text
  | .pre language =>
      if language ≠ [] then pre_language text language else preDeco text
  | .mentionName user_id =>
      link text (strCodes "tg://user?id=" ++ natStr user_id)
  | .textUrl u => link text u
  | .url => link text text
  | .email => link text (strCodes "mailto:" ++ text)
  | .customEmoji document_id =>
      if CUSTOM_EMOJIS then custom_emoji text document_id else quote text
  | .other => quote text

/-- Python slice l[a:b] for non-negative indices: clamped, empty when the
start is at or past the stop. -/
def pySlice (l : List Nat) (a b : Nat) : List Nat :=
  (l.drop a).take (b - a)

/-- Insertion step of a stable sort by ascending offset: the new element goes
before the first strictly larger offset and after equal ones already placed
later in the original list order. -/
def insertByOffset (e : MessageEntity) : List MessageEntity → List MessageEntity
  | [] => [e]
  | x :: xs => if x.offset < e.offset then x :: insertByOffset e xs else e :: x :: xs

/-- Stable sort by ascending offset, the behaviour of
sorted(entities, key=lambda item: item.offset) on html.py line 204. -/
def sortByOffset (es : List MessageEntity) : List MessageEntity :=
  es.foldr insertByOffset []

/-- Concatenation of the yielded fragments, the behaviour of the
str.join call on html.py line 201. -/
def joinL (xs : List (List Nat)) : List Nat :=
  xs.flatMap id

/-- Fuel-indexed embedding of TextDecoration._unparse_entities (html.py
lines 208-242). The text argument is the UTF-16-LE byte buffer, offset and
length are byte positions, and entity offsets are doubled as in the source.
The two normalizations of the Python entry (offset defaulting to zero,
length falling back to the buffer length when zero or absent) are inlined at
each call site. The gap and tail slices go through remove_surrogates, whose
failure (a raised UnicodeDecodeError) propagates as none. Fuel zero also
gives none, but the wrapper always supplies sufficient fuel. -/
def unparse_entities_go : Nat → List Nat → Nat → Nat → List MessageEntity →
    Option (List (List Nat))
  | 0, _, _, _, _ => none
  | _ + 1, text, offset, length, [] =>
    if offset < length then
      (remove_surrogates (pySlice text offset length)).map fun s => [quote s]
    else some []
  | fuel + 1, text, offset, length, e :: rest =>
    if e.offset * 2 < offset then
      unparse_entities_go fuel text offset length rest
    else
      let start := e.offset * 2
      let offset' := e.offset * 2 + e.length * 2
      let sub := rest.filter fun e2 => e2.offset * 2 < offset'
      match
        (if e.offset * 2 > offset then
          (remove_surrogates (pySlice text offset (e.offset * 2))).map
            fun s => [quote s]
        else some []),
        unparse_entities_go fuel text start
          (if offset' = 0 then text.length else offset') sub,
        unparse_entities_go fuel text offset' length rest with
      | some gap, some inner, some tail =>
        some (gap ++ apply_entity e (joinL inner) :: tail)
      | _, _, _ => none

/-- TextDecoration._unparse_entities with the fuel supplied: one more than
the entity list length, which the fuel-sufficiency lemma shows is enough. -/
def unparse_entities (text : List Nat) (offset length : Nat)
    (es : List MessageEntity) : Option (List (List Nat)) :=
  unparse_entities_go (es.length + 1) text offset length es

/-- Embedding of TextDecoration.unparse (html.py lines 194-206) for the
HtmlDecoration renderer: encode the text to the UTF-16-LE buffer, sort the
entities by offset when the argument is truthy, run the recursive core and
join the fragments; none models a raised exception. -/
def unparse (text : List Nat) (entities : Option (List MessageEntity)) :
    Option (List Nat) :=
  let t := add_surrogates text
  let es := match entities with
    | some l => if l = [] then [] else sortByOffset l
    | none => []
  (unparse_entities t 0 t.length es).map joinL

/-! ## The HTML-to-entities parser (html.py lines 34-145) -/

/-- Attribute list of a start tag: names with optional values, as the
stdlib tokenizer hands them to handle_starttag. -/
abbrev Attrs := List (List Nat × Option (List Nat))

/-- Lookup in the dict built from an attribute list: the last binding of a
key wins, as in dict(attrs). -/
def dictGet {α : Type} : List (List Nat × α) → List Nat → Option α
  | [], _ => none
  | (k', v) :: rest, k =>
    match dictGet rest k with
    | some v' => some v'
    | none => if k' = k then some v else none

/-- Lookup in the builder map. Keys are unique there (insertion is guarded),
so the first binding is the binding. -/
def assocGet {α : Type} : List (List Nat × α) → List Nat → Option α
  | [], _ => none
  | (k', v) :: rest, k => if k' = k then some v else assocGet rest k

/-- Removal of a key from the builder map, the dict.pop(tag, None) of
html.py line 126: the removed value, if any, and the remaining map. -/
def assocPop {α : Type} : List (List Nat × α) → List Nat →
    Option α × List (List Nat × α)
  | [], _ => (none, [])
  | (k', v) :: rest, k =>
    if k' = k then (some v, rest)
    else
      let r := assocPop rest k
      (r.1, (k', v) :: r.2)

/-- Language back-patch on an open pre builder (html.py line 72): only the
pre kind carries a language field to set. -/
def setLanguage (e : MessageEntity) (language : List Nat) : MessageEntity :=
  match e.kind with
  | .pre _ => { e with kind := .pre language }
  | _ => e

/-- The builder map with the language of the entity stored under the pre key
replaced, leaving every other binding as it is. -/
def bSetLang (m : List (List Nat × MessageEntity)) (language : List Nat) :
    List (List Nat × MessageEntity) :=
  m.map fun kv =>
    if kv.1 = strCodes "pre" then (kv.1, setLanguage kv.2 language) else kv

/-- Parser state, the instance attributes set up in
HTMLToTelegramParser.__init__ (html.py lines 35-41). The building_entities
map is kept as an insertion-ordered association list with unique keys, and
the two deques grow at the head. -/
structure HTMLToTelegramParser : Type where
  text : List Nat
  entities : List MessageEntity
  building_entities : List (List Nat × MessageEntity)
  open_tags : List (List Nat)
  open_tags_meta : List (Option (List Nat))
deriving DecidableEq

/-- The freshly initialized parser. -/
def initParser : HTMLToTelegramParser :=
  ⟨[], [], [], [], []⟩

/-- Replacement of the head of the metadata deque, the popleft plus
appendleft of html.py lines 95-96. The deque is never empty there because
handle_starttag pushes onto it first. -/
def setMetaHead (st : HTMLToTelegramParser) (m : Option (List Nat)) :
    HTMLToTelegramParser :=
  { st with open_tags_meta := m :: st.open_tags_meta.drop 1 }

/-- Python int() on a string, modelled for the decimal forms the attribute
can take: optional surrounding spaces around a nonempty digit run. A
non-numeric value gives none, modelling the raised ValueError; so does a
missing value, modelling int(None). -/
def pyInt (s : List Nat) : Option Nat :=
  let t := (s.dropWhile fun c => c = 32).reverse.dropWhile (fun c => c = 32)
  let t := t.reverse
  if t ≠ [] ∧ t.all fun c => decide (48 ≤ c) && decide (c ≤ 57) then
    some (t.foldl (fun acc c => acc * 10 + (c - 48)) 0)
  else none

/-- Tag-kind resolution of handle_starttag (html.py lines 47-99), run after
the two pushes: the possibly updated state paired with the kind of entity to
open, none standing for a raised exception (a valueless href or class
attribute, a missing or non-numeric emoji document_id, or a failing
del_surrogate on the href). -/
def starttag_resolve (st : HTMLToTelegramParser) (tag : List Nat)
    (attrs : Attrs) (starttag_text : List Nat) :
    Option (HTMLToTelegramParser × Option EntityKind) :=
  if tag = strCodes "strong" ∨ tag = strCodes "b" then some (st, some .bold)
  else if tag = strCodes "em" ∨ tag = strCodes "i" then some (st, some .italic)
  else if tag = strCodes "tg-spoiler" then some (st, some .spoiler)
  else if tag = strCodes "u" then some (st, some .underline)
  else if tag = strCodes "del" ∨ tag = strCodes "s" then some (st, some .strike)
  else if tag = strCodes "blockquote" then some (st, some .blockquote)
  else if tag = strCodes "code" then
    match assocGet st.building_entities (strCodes "pre") with
    | some _ =>
      match dictGet attrs (strCodes "class") with
      | none => some (st, none)
      | some none => none
      | some (some cls) =>
        let st' := { st with
          building_entities := bSetLang st.building_entities (cls.drop 9) }
        some (st', none)
    | none => some (st, some .code)
  else if tag = strCodes "pre" then some (st, some (.pre []))
  else if tag = strCodes "a" then
    match dictGet attrs (strCodes "href") with
    | none => some (st, none)
    | some none => none
    | some (some href) =>
      if (strCodes "mailto:").isPrefixOf href then
        some (setMetaHead st (some (href.drop 7)), some .email)
      else if starttag_text = href then
        some (setMetaHead st (some href), some .url)
      else
        match del_surrogate href with
        | none => none
        | some u => some (setMetaHead st none, some (.textUrl u))
  else if tag = strCodes "emoji" ∧ CUSTOM_EMOJIS = true then
    match dictGet attrs (strCodes "document_id") with
    | none => none
    | some none => none
    | some (some v) =>
      match pyInt v with
      | none => none
      | some n => some (st, some (.customEmoji n))
  else some (st, none)

/-- Embedding of HTMLToTelegramParser.handle_starttag (html.py lines
43-106): push the tag and an empty metadata slot, resolve the kind with its
side effects, then open a builder at the current text length only when a
kind was resolved and no builder for this tag name is open. -/
def handle_starttag (st : HTMLToTelegramParser) (tag : List Nat)
    (attrs : Attrs) (starttag_text : List Nat) :
    Option HTMLToTelegramParser :=
  let st := { st with
    open_tags := tag :: st.open_tags,
    open_tags_meta := none :: st.open_tags_meta }
  match starttag_resolve st tag attrs starttag_text with
  | none => none
  | some (st', none) => some st'
  | some (st', some kind) =>
    if assocGet st'.building_entities tag = none then
      some { st' with building_entities :=
        st'.building_entities ++ [(tag, ⟨kind, st'.text.length, 0⟩)] }
    else some st'

/-- Embedding of HTMLToTelegramParser.handle_data (html.py lines 108-118):
inside an anchor whose metadata carries a truthy substitute, the substitute
replaces the literal data; every open builder grows by the emitted length
and the text accumulator is extended. In every reachable state the two
deques have equal length, so the metadata head exists whenever the tag head
does. -/
def handle_data (st : HTMLToTelegramParser) (data : List Nat) :
    HTMLToTelegramParser :=
  let previous_tag := match st.open_tags with
    | t :: _ => t
    | [] => []
  let text := if previous_tag = strCodes "a" then
      match st.open_tags_meta with
      | some url :: _ => if url = [] then data else url
      | _ => data
    else data
  { st with
    building_entities := st.building_entities.map
      (fun kv => (kv.1, { kv.2 with length := kv.2.length + text.length })),
    text := st.text ++ text }

/-- Embedding of HTMLToTelegramParser.handle_endtag (html.py lines 120-128):
pop one entry from each deque, where the try block makes popping past empty
a no-op (and when only the first deque is empty, the caught IndexError stops
the second pop); then close and append the builder for this tag name, if
any. -/
def handle_endtag (st : HTMLToTelegramParser) (tag : List Nat) :
    HTMLToTelegramParser :=
  let stks : List (List Nat) × List (Option (List Nat)) :=
    match st.open_tags, st.open_tags_meta with
    | [], m => ([], m)
    | _ :: ts, [] => (ts, [])
    | _ :: ts, _ :: ms => (ts, ms)
  let popped := assocPop st.building_entities tag
  match popped.1 with
  | some e =>
    { st with
      open_tags := stks.1,
      open_tags_meta := stks.2,
      building_entities := popped.2,
      entities := st.entities ++ [e] }
  | none =>
    { st with
      open_tags := stks.1,
      open_tags_meta := stks.2,
      building_entities := popped.2 }

/-- One event of the streaming scan: a start tag with its attributes and its
raw source text, an end tag, or character data. -/
inductive HtmlToken : Type
  | startTag (tag : List Nat) (attrs : Attrs) (raw : List Nat)
  | endTag (tag : List Nat)
  | chunk (data : List Nat)
deriving DecidableEq

/-- ASCII lowercasing of one code point, as the stdlib tokenizer applies to
tag names. -/
def lowerChar (c : Nat) : Nat :=
  if 65 ≤ c ∧ c ≤ 90 then c + 32 else c

/-- Split at the first occurrence of a stop character: the part before it
and the rest beginning with it. -/
def splitAtChar (stop : Nat) : List Nat → List Nat × List Nat
  | [] => ([], [])
  | c :: rest =>
    if c = stop then ([], c :: rest)
    else
      let r := splitAtChar stop rest
      (c :: r.1, r.2)

/-- Modelled from the spec: attribute scanning of the stdlib HTML tokenizer,
which is not part of the repository. Inside a tag, space-separated items are
either bare names (value absent) or name=value pairs, with the value
optionally enclosed in double or single quotes; names are lowercased. The
fuel is the input length plus one. -/
def parseAttrs : Nat → List Nat → Attrs
  | 0, _ => []
  | fuel + 1, s =>
    let s := s.dropWhile fun c => c = 32
    match s with
    | [] => []
    | _ :: _ =>
      let nameSplit := s.span fun c => decide (c ≠ 61) && decide (c ≠ 32)
      let name := nameSplit.1.map lowerChar
      match nameSplit.2 with
      | 61 :: afterEq =>
        match afterEq with
        | 34 :: q =>
          let v := splitAtChar 34 q
          (name, some v.1) :: parseAttrs fuel (v.2.drop 1)
        | 39 :: q =>
          let v := splitAtChar 39 q
          (name, some v.1) :: parseAttrs fuel (v.2.drop 1)
        | _ =>
          let v := afterEq.span fun c => decide (c ≠ 32)
          (name, some v.1) :: parseAttrs fuel v.2
      | rest => (name, none) :: parseAttrs fuel rest

/-- Modelled from the spec: the streaming scan of the stdlib HTML tokenizer
(HTMLParser), which is not part of the repository; per spec section 4.2 it
is a single left-to-right scan recognizing start tags, end tags and
character data. Markup between a less-than and the next greater-than sign
becomes a tag event carrying its raw source text; everything else is data.
Character reference replacement is not modelled. The fuel is the input
length plus one. -/
def tokenize : Nat → List Nat → List HtmlToken
  | 0, _ => []
  | fuel + 1, s =>
    match s with
    | [] => []
    | 60 :: rest =>
      let inner := splitAtChar 62 rest
      match inner.2 with
      | [] => [HtmlToken.chunk (60 :: rest)]
      | _ :: afterGt =>
        let tok :=
          match inner.1 with
          | 47 :: nm => HtmlToken.endTag ((nm.takeWhile fun c => decide (c ≠ 32)).map lowerChar)
          | nm =>
            let tagName := (nm.takeWhile fun c => decide (c ≠ 32)).map lowerChar
            let attrs := parseAttrs (nm.length + 1) (nm.dropWhile fun c => decide (c ≠ 32))
            HtmlToken.startTag tagName attrs (60 :: inner.1 ++ [62])
        tok :: tokenize fuel afterGt
    | c :: rest =>
      let d := splitAtChar 60 (c :: rest)
      HtmlToken.chunk d.1 :: tokenize fuel d.2

/-- The parser run over a token stream, dispatching each event to its
handler as HTMLParser.feed does; a raised exception propagates as none. -/
def feedTokens (st : HTMLToTelegramParser) : List HtmlToken →
    Option HTMLToTelegramParser
  | [] => some st
  | HtmlToken.chunk d :: ts => feedTokens (handle_data st d) ts
  | HtmlToken.endTag tag :: ts => feedTokens (handle_endtag st tag) ts
  | HtmlToken.startTag tag attrs raw :: ts =>
    match handle_starttag st tag attrs raw with
    | none => none
    | some st' => feedTokens st' ts

/-- Whitespace for the trimming step. -/
def isSpaceChar (c : Nat) : Bool :=
  c = 32 ∨ c = 9 ∨ c = 10 ∨ c = 13

/-- Modelled from the spec: helpers.strip_text is repository code that is
not under src/. Per spec section 2 the span merger trims leading and
trailing whitespace from the overall text while shifting and clipping
entity offsets consistently. Offsets shift down by the removed leading run
(clipped at zero) and lengths clip to the trimmed bounds. -/
def strip_text (text : List Nat) (entities : List MessageEntity) :
    List Nat × List MessageEntity :=
  let lead := (text.takeWhile isSpaceChar).length
  let trimmed := (((text.drop lead).reverse.dropWhile isSpaceChar)).reverse
  let adjusted := entities.map fun e =>
    let o := e.offset - lead
    { e with offset := o, length := min e.length (trimmed.length - o) }
  (trimmed, adjusted)

/-- Embedding of parse (html.py lines 131-145): falsy input returns
unchanged with no entities; otherwise the surrogate-encoded input is
scanned, the result is whitespace-trimmed and de-surrogated. A raised
exception propagates as none. -/
def parse (html : List Nat) : Option (List Nat × List MessageEntity) :=
  if html = [] then some (html, [])
  else
    match feedTokens initParser (tokenize (add_surrogate html).length.succ (add_surrogate html)) with
    | none => none
    | some p =>
      let r := strip_text p.text p.entities
      match del_surrogate r.1 with
      | none => none
      | some t => some (t, r.2)

/-! ## Validity and surrogate-pairing predicates -/

/-- A valid Unicode scalar value: in range and not a surrogate code point.
Python strings of ordinary text consist of these. -/
def ValidScalar (c : Nat) : Prop :=
  c ≤ 0x10FFFF ∧ ¬(0xD800 ≤ c ∧ c ≤ 0xDFFF)

/-- A string of valid Unicode scalar values. -/
def ValidStr (s : List Nat) : Prop :=
  ∀ c ∈ s, ValidScalar c

instance : DecidablePred ValidScalar := fun c => by
  unfold ValidScalar
  infer_instance

instance : DecidablePred ValidStr := fun s => by
  unfold ValidStr
  infer_instance

/-- The UTF-16 code-unit sequence of a string. -/
def strUnits (s : List Nat) : List Nat :=
  s.flatMap utf16Units

/-- Checks that a unit sequence is well paired: every high surrogate is
immediately followed by a low surrogate and no low surrogate appears alone.
The strict Python UTF-16 decoder succeeds exactly on such sequences. -/
def wellPairedB : List Nat → Bool
  | [] => true
  | [u] => if 0xD800 ≤ u ∧ u ≤ 0xDFFF then false else true
  | u :: l :: rest =>
    if 0xD800 ≤ u ∧ u ≤ 0xDBFF then
      if 0xDC00 ≤ l ∧ l ≤ 0xDFFF then wellPairedB rest else false
    else if 0xDC00 ≤ u ∧ u ≤ 0xDFFF then false
    else wellPairedB (l :: rest)

/-- Position p is a clean cut of the UTF-16 unit sequence of a string: the
prefix of p units is well paired, that is, the cut does not fall between
the two halves of a surrogate pair. -/
def cutOk (s : List Nat) (p : Nat) : Prop :=
  wellPairedB ((strUnits s).take p) = true

instance (s : List Nat) (p : Nat) : Decidable (cutOk s p) := by
  unfold cutOk
  infer_instance

/-! ## Fuel sufficiency for the unparser core -/

/-- The fuel argument is irrelevant once it exceeds the entity list length:
both recursive calls use strictly shorter lists, so the recursion never
exhausts sufficient fuel. -/
theorem unparse_entities_go_fuel_eq :
    ∀ (n : Nat) (es : List MessageEntity), es.length ≤ n →
    ∀ (f f' : Nat) (text : List Nat) (offset length : Nat),
      es.length < f → es.length < f' →
      unparse_entities_go f text offset length es
        = unparse_entities_go f' text offset length es := by
  intro n
  induction n with
  | zero =>
    intro es hes f f' text offset length hf hf'
    match es, f, f' with
    | [], f₁ + 1, f₂ + 1 => rfl
  | succ n ih =>
    intro es hes f f' text offset length hf hf'
    match es, f, f' with
    | [], f₁ + 1, f₂ + 1 => rfl
    | e :: rest, f₁ + 1, f₂ + 1 =>
      have hrest_n : rest.length ≤ n := by
        simp only [List.length_cons] at hes
        omega
      have hrest₁ : rest.length < f₁ := by
        simp only [List.length_cons] at hf
        omega
      have hrest₂ : rest.length < f₂ := by
        simp only [List.length_cons] at hf'
        omega
      have hsub : ∀ p : MessageEntity → Bool,
          (rest.filter p).length ≤ n :=
        fun p => le_trans (List.length_filter_le p rest) hrest_n
      have hsub₁ : ∀ p : MessageEntity → Bool, (rest.filter p).length < f₁ :=
        fun p => Nat.lt_of_le_of_lt (List.length_filter_le p rest) hrest₁
      have hsub₂ : ∀ p : MessageEntity → Bool, (rest.filter p).length < f₂ :=
        fun p => Nat.lt_of_le_of_lt (List.length_filter_le p rest) hrest₂
      simp only [unparse_entities_go]
      rw [ih rest hrest_n f₁ f₂ text offset length hrest₁ hrest₂]
      rw [ih (rest.filter fun e2 => decide (e2.offset * 2 < e.offset * 2 + e.length * 2))
        (hsub _) f₁ f₂ text (e.offset * 2)
        (if e.offset * 2 + e.length * 2 = 0 then text.length
          else e.offset * 2 + e.length * 2)
        (hsub₁ _) (hsub₂ _)]
      rw [ih rest hrest_n f₁ f₂ text (e.offset * 2 + e.length * 2) length
        hrest₁ hrest₂]

/-- C4: during the recursive rendering, an entity whose doubled start is
strictly below the cursor is skipped entirely: the rendering of the list
with it at the head equals the rendering without it, at the same cursor, so
it contributes no decoration and no text and does not move the cursor. -/
theorem unparse_entities_skips_entity_before_cursor
    (text : List Nat) (offset length : Nat) (e : MessageEntity)
    (rest : List MessageEntity) (h : e.offset * 2 < offset) :
    unparse_entities text offset length (e :: rest)
      = unparse_entities text offset length rest := by
  show unparse_entities_go ((e :: rest).length + 1) text offset length (e :: rest)
      = unparse_entities_go (rest.length + 1) text offset length rest
  simp only [List.length_cons, unparse_entities_go, h, if_pos]

/-- Witness for C4 at a concrete skipped entity. -/
theorem unparse_entities_skips_entity_before_cursor_witness :
    unparse_entities (strCodes "ab") 2 4 [⟨.bold, 0, 1⟩]
      = unparse_entities (strCodes "ab") 2 4 [] :=
  unparse_entities_skips_entity_before_cursor (strCodes "ab") 2 4
    ⟨.bold, 0, 1⟩ [] (by decide)

/-- C2 (code bug): on the text of the edge-entities test with Bold spans at
offsets 0 and 7 of length 5, the unparser renders b tags, not the strong
tags that the repository test test_entity_edges asserts. -/
theorem unparse_entity_edges_renders_b_tags :
    unparse (strCodes "Hello, world") (some [⟨.bold, 0, 5⟩, ⟨.bold, 7, 5⟩])
        = some (strCodes "<b>Hello</b>, <b>world</b>")
      ∧ unparse (strCodes "Hello, world") (some [⟨.bold, 0, 5⟩, ⟨.bold, 7, 5⟩])
        ≠ some (strCodes "<strong>Hello</strong>, <strong>world</strong>") := by
  constructor
  · decide
  · decide

/-- C3: the trophy-emoji text with a text-url entity of offset 2 and length
43 unparses to exactly the expected anchor markup, the span ending at the
true end of the enclosed text and the trailing characters preserved. -/
theorem unparse_malformed_entities_clipped :
    unparse (strCodes "🏆Telegram Official Android Challenge is over🏆.")
        (some [⟨.textUrl (strCodes "https://example.com"), 2, 43⟩])
      = some (strCodes "🏆<a href=\"https://example.com\">Telegram Official Android Challenge is over</a>🏆.") := by
  decide

/-- C6: the empty string is the only falsy string value, and parse returns
it unchanged, paired with an empty entity list. -/
theorem parse_empty_input :
    parse [] = some ([], []) := by
  decide

/-! ## Surrogate codec lemmas -/

theorem highSurr_ge (c : Nat) : 0xD800 ≤ highSurr c :=
  Nat.le_add_right _ _

theorem highSurr_le {c : Nat} (hc : c ≤ 0x10FFFF) : highSurr c ≤ 0xDBFF := by
  unfold highSurr
  omega

theorem lowSurr_ge (c : Nat) : 0xDC00 ≤ lowSurr c :=
  Nat.le_add_right _ _

theorem lowSurr_le (c : Nat) : lowSurr c ≤ 0xDFFF := by
  unfold lowSurr
  omega

theorem surrPair_combine {c : Nat} (hc : 0x10000 ≤ c) :
    0x10000 + (highSurr c - 0xD800) * 0x400 + (lowSurr c - 0xDC00) = c := by
  unfold highSurr lowSurr
  omega

theorem unitsDecode_utf16Units_append {c : Nat} (hc : ValidScalar c)
    (t : List Nat) :
    unitsDecode (utf16Units c ++ t) = (unitsDecode t).map (fun s => c :: s) := by
  by_cases h : c < 0x10000
  · have h1 : ¬(0xD800 ≤ c ∧ c ≤ 0xDBFF) := fun x => hc.2 ⟨x.1, by omega⟩
    have h2 : ¬(0xDC00 ≤ c ∧ c ≤ 0xDFFF) := fun x => hc.2 ⟨by omega, x.2⟩
    have h3 : ¬(0xD800 ≤ c ∧ c ≤ 0xDFFF) := hc.2
    cases t with
    | nil => simp [utf16Units, h, unitsDecode, h3]
    | cons l t' => simp [utf16Units, h, unitsDecode, h1, h2]
  · have hc' : c ≤ 0x10FFFF := hc.1
    have hh : 0xD800 ≤ highSurr c ∧ highSurr c ≤ 0xDBFF :=
      ⟨highSurr_ge c, highSurr_le hc'⟩
    have hl : 0xDC00 ≤ lowSurr c ∧ lowSurr c ≤ 0xDFFF :=
      ⟨lowSurr_ge c, lowSurr_le c⟩
    simp [utf16Units, h, unitsDecode, hh, hl,
      surrPair_combine (by omega : 0x10000 ≤ c)]

theorem unitsDecode_strUnits {s : List Nat} (hs : ValidStr s) :
    unitsDecode (strUnits s) = some s := by
  induction s with
  | nil => rfl
  | cons c cs ih =>
    have hc : ValidScalar c := hs c (by simp)
    have hcs : ValidStr cs := fun x hx => hs x (by simp [hx])
    show unitsDecode (utf16Units c ++ strUnits cs) = some (c :: cs)
    rw [unitsDecode_utf16Units_append hc, ih hcs]
    rfl

theorem utf16Units_eq_encoded_char {c : Nat} (hc : ValidScalar c) :
    (if 0x10000 ≤ c ∧ c ≤ 0x10FFFF then [highSurr c, lowSurr c] else [c])
      = utf16Units c := by
  by_cases h : c < 0x10000
  · have hno : ¬(0x10000 ≤ c ∧ c ≤ 0x10FFFF) := fun x => absurd x.1 (by omega)
    simp [utf16Units, h, hno]
  · have hyes : 0x10000 ≤ c ∧ c ≤ 0x10FFFF := ⟨by omega, hc.1⟩
    simp [utf16Units, h, hyes]

theorem add_surrogate_eq_strUnits {s : List Nat} (hs : ValidStr s) :
    add_surrogate s = strUnits s :=
  List.flatMap_congr fun c hc => utf16Units_eq_encoded_char (hs c hc)

/-- C5: on a string of valid Unicode scalar values, the per-code-point
surrogate encoder leaves every value at or below U+FFFF unchanged, turns
every larger value into its high-then-low surrogate pair, and the decoder
applied to its output recovers the original string; both directions
succeed. -/
theorem surrogate_codec_round_trip (s : List Nat) (hs : ValidStr s) :
    del_surrogate (add_surrogate s) = some s
    ∧ (∀ c ∈ s, c ≤ 0xFFFF → add_surrogate [c] = [c])
    ∧ (∀ c ∈ s, 0x10000 ≤ c →
        add_surrogate [c] = [highSurr c, lowSurr c]
        ∧ 0xD800 ≤ highSurr c ∧ highSurr c ≤ 0xDBFF
        ∧ 0xDC00 ≤ lowSurr c ∧ lowSurr c ≤ 0xDFFF) := by
  refine ⟨?_, ?_, ?_⟩
  · show unitsDecode (add_surrogate s) = some s
    rw [add_surrogate_eq_strUnits hs]
    exact unitsDecode_strUnits hs
  · intro c _ hc
    have hno : ¬(0x10000 ≤ c ∧ c ≤ 0x10FFFF) := fun x => absurd x.1 (by omega)
    simp [add_surrogate, hno]
  · intro c hcs hc
    have hv : ValidScalar c := hs c hcs
    refine ⟨?_, highSurr_ge c, highSurr_le hv.1, lowSurr_ge c, lowSurr_le c⟩
    simp [add_surrogate, hc, hv.1]

/-- Witness for C5 at a concrete string containing an astral code point. -/
theorem surrogate_codec_round_trip_witness :
    del_surrogate (add_surrogate (strCodes "a😀b")) = some (strCodes "a😀b") :=
  (surrogate_codec_round_trip (strCodes "a😀b") (by decide)).1

/-! ## Byte-level round trip and the entity-free unparse -/

theorem bytesToUnits_flat (us : List Nat) :
    bytesToUnits (us.flatMap unitBytes) = some us := by
  induction us with
  | nil => rfl
  | cons u rest ih =>
    show bytesToUnits (u % 256 :: u / 256 :: rest.flatMap unitBytes)
      = some (u :: rest)
    rw [bytesToUnits, ih]
    have : u % 256 + 256 * (u / 256) = u := by omega
    simp [this]

theorem remove_surrogates_add_surrogates {s : List Nat} (hs : ValidStr s) :
    remove_surrogates (add_surrogates s) = some s := by
  show ((bytesToUnits ((strUnits s).flatMap unitBytes)).bind unitsDecode) = some s
  rw [bytesToUnits_flat]
  show unitsDecode (strUnits s) = some s
  exact unitsDecode_strUnits hs

theorem add_surrogates_cons_ne_nil (c : Nat) (cs : List Nat) :
    add_surrogates (c :: cs) ≠ [] := by
  by_cases h : c < 0x10000 <;>
    simp [add_surrogates, utf16Units, unitBytes, h]

theorem pySlice_all (t : List Nat) : pySlice t 0 t.length = t := by
  simp [pySlice]

/-- C7: with entities absent or empty, unparse returns the text escaped by
the HTML quote rule and adds no decoration; the quote rule replaces exactly
the ampersand, less-than and greater-than characters and leaves double and
single quotes (and every other character) unchanged. -/
theorem unparse_no_entities (text : List Nat) (h : ValidStr text) :
    unparse text none = some (quote text)
    ∧ unparse text (some []) = some (quote text)
    ∧ escape_char 38 = strCodes "&amp;"
    ∧ escape_char 60 = strCodes "&lt;"
    ∧ escape_char 62 = strCodes "&gt;"
    ∧ escape_char 34 = [34]
    ∧ escape_char 39 = [39]
    ∧ ∀ c, c ≠ 38 → c ≠ 60 → c ≠ 62 → escape_char c = [c] := by
  have main : (unparse_entities (add_surrogates text) 0
      (add_surrogates text).length []).map joinL = some (quote text) := by
    cases text with
    | nil => rfl
    | cons c cs =>
      have hne := add_surrogates_cons_ne_nil c cs
      have hpos : 0 < (add_surrogates (c :: cs)).length :=
        List.length_pos.mpr hne
      show (unparse_entities_go 1 (add_surrogates (c :: cs)) 0
          (add_surrogates (c :: cs)).length []).map joinL
        = some (quote (c :: cs))
      rw [unparse_entities_go, if_pos hpos, pySlice_all,
        remove_surrogates_add_surrogates h]
      simp [joinL]
  refine ⟨main, main, rfl, rfl, rfl, rfl, rfl, ?_⟩
  intro c h38 h60 h62
  simp [escape_char, h38, h60, h62]

/-- Witness for C7 at a concrete text containing all three escaped
characters and a double quote. -/
theorem unparse_no_entities_witness :
    unparse (strCodes "a&<>\"z") none = some (quote (strCodes "a&<>\"z")) :=
  (unparse_no_entities (strCodes "a&<>\"z") (by decide)).1

/-! ## Well-paired slices and totality of the unparser -/

theorem wellPairedB_utf16Units_append {c : Nat} (hc : ValidScalar c)
    (t : List Nat) :
    wellPairedB (utf16Units c ++ t) = wellPairedB t := by
  by_cases h : c < 0x10000
  · have h1 : ¬(0xD800 ≤ c ∧ c ≤ 0xDBFF) := fun x => hc.2 ⟨x.1, by omega⟩
    have h2 : ¬(0xDC00 ≤ c ∧ c ≤ 0xDFFF) := fun x => hc.2 ⟨by omega, x.2⟩
    have h3 : ¬(0xD800 ≤ c ∧ c ≤ 0xDFFF) := hc.2
    cases t with
    | nil => simp [utf16Units, h, wellPairedB, h3]
    | cons l t' => simp [utf16Units, h, wellPairedB, h1, h2]
  · have hh : 0xD800 ≤ highSurr c ∧ highSurr c ≤ 0xDBFF :=
      ⟨highSurr_ge c, highSurr_le hc.1⟩
    have hl : 0xDC00 ≤ lowSurr c ∧ lowSurr c ≤ 0xDFFF :=
      ⟨lowSurr_ge c, lowSurr_le c⟩
    simp [utf16Units, h, wellPairedB, hh, hl]

theorem wellPairedB_strUnits {s : List Nat} (hs : ValidStr s) :
    wellPairedB (strUnits s) = true := by
  induction s with
  | nil => rfl
  | cons c cs ih =>
    have hc : ValidScalar c := hs c (List.mem_cons_self c cs)
    have hcs : ValidStr cs := fun x hx => hs x (List.mem_cons_of_mem c hx)
    show wellPairedB (utf16Units c ++ strUnits cs) = true
    rw [wellPairedB_utf16Units_append hc]
    exact ih hcs

theorem unitsDecode_isSome_of_wellPairedB :
    ∀ us : List Nat, wellPairedB us = true → ∃ r, unitsDecode us = some r := by
  intro us
  induction us using wellPairedB.induct with
  | case1 => exact fun _ => ⟨[], rfl⟩
  | case2 u hcond =>
    intro h
    rw [wellPairedB, if_pos hcond] at h
    exact absurd h (by simp)
  | case3 u hcond =>
    intro h
    rw [unitsDecode, if_neg hcond]
    exact ⟨_, rfl⟩
  | case4 u l rest h1 h2 ih =>
    intro h
    rw [wellPairedB, if_pos h1, if_pos h2] at h
    obtain ⟨r, hr⟩ := ih h
    rw [unitsDecode, if_pos h1, if_pos h2, hr]
    exact ⟨_, rfl⟩
  | case5 u l rest h1 h2 =>
    intro h
    rw [wellPairedB, if_pos h1, if_neg h2] at h
    exact absurd h (by simp)
  | case6 u l rest h1 h2 =>
    intro h
    rw [wellPairedB, if_neg h1, if_pos h2] at h
    exact absurd h (by simp)
  | case7 u l rest h1 h2 ih =>
    intro h
    rw [wellPairedB, if_neg h1, if_neg h2] at h
    obtain ⟨r, hr⟩ := ih h
    rw [unitsDecode, if_neg h1, if_neg h2, hr]
    exact ⟨_, rfl⟩

theorem wellPairedB_append_right :
    ∀ xs ys : List Nat, wellPairedB (xs ++ ys) = true →
      wellPairedB xs = true → wellPairedB ys = true := by
  intro xs
  induction xs using wellPairedB.induct with
  | case1 => exact fun ys h _ => h
  | case2 u hcond =>
    intro ys h hx
    rw [wellPairedB, if_pos hcond] at hx
    exact absurd hx (by simp)
  | case3 u hcond =>
    intro ys h hx
    cases ys with
    | nil => rfl
    | cons l t =>
      have h1 : ¬(0xD800 ≤ u ∧ u ≤ 0xDBFF) := fun x => hcond ⟨x.1, by omega⟩
      have h2 : ¬(0xDC00 ≤ u ∧ u ≤ 0xDFFF) := fun x => hcond ⟨by omega, x.2⟩
      rw [List.singleton_append, wellPairedB, if_neg h1, if_neg h2] at h
      exact h
  | case4 u l rest h1 h2 ih =>
    intro ys h hx
    rw [wellPairedB, if_pos h1, if_pos h2] at hx
    rw [List.cons_append, List.cons_append, wellPairedB,
      if_pos h1, if_pos h2] at h
    exact ih ys h hx
  | case5 u l rest h1 h2 =>
    intro ys h hx
    rw [wellPairedB, if_pos h1, if_neg h2] at hx
    exact absurd hx (by simp)
  | case6 u l rest h1 h2 =>
    intro ys h hx
    rw [wellPairedB, if_neg h1, if_pos h2] at hx
    exact absurd hx (by simp)
  | case7 u l rest h1 h2 ih =>
    intro ys h hx
    rw [wellPairedB, if_neg h1, if_neg h2] at hx
    rw [List.cons_append, List.cons_append, wellPairedB,
      if_neg h1, if_neg h2] at h
    rw [← List.cons_append] at h
    exact ih ys h hx

theorem wellPairedB_pySlice (us : List Nat) (a b : Nat)
    (_h : wellPairedB us = true)
    (ha : wellPairedB (us.take a) = true)
    (hb : wellPairedB (us.take b) = true) :
    wellPairedB (pySlice us a b) = true := by
  rcases le_or_lt b a with hba | hab
  · have : b - a = 0 := Nat.sub_eq_zero_of_le hba
    rw [pySlice, this, List.take_zero]
    rfl
  · have hdt : pySlice us a b = (us.take b).drop a := by
      rw [pySlice, List.drop_take]
    rw [hdt]
    have hsplit : (us.take b).take a ++ (us.take b).drop a = us.take b :=
      List.take_append_drop a (us.take b)
    have htt : (us.take b).take a = us.take a := by
      rw [List.take_take, min_eq_left (le_of_lt hab)]
    apply wellPairedB_append_right ((us.take b).take a)
    · rw [hsplit]; exact hb
    · rw [htt]; exact ha

theorem unitsDecode_pySlice_isSome (us : List Nat) (a b : Nat)
    (h : wellPairedB us = true)
    (ha : wellPairedB (us.take a) = true)
    (hb : wellPairedB (us.take b) = true) :
    ∃ r, unitsDecode (pySlice us a b) = some r :=
  unitsDecode_isSome_of_wellPairedB _ (wellPairedB_pySlice us a b h ha hb)

theorem length_flat_unitBytes (us : List Nat) :
    (us.flatMap unitBytes).length = us.length * 2 := by
  induction us with
  | nil => rfl
  | cons u rest ih =>
    show (unitBytes u ++ rest.flatMap unitBytes).length = (rest.length + 1) * 2
    rw [List.length_append, ih]
    simp [unitBytes]
    omega

theorem drop_flat_unitBytes :
    ∀ (a : Nat) (us : List Nat),
      (us.flatMap unitBytes).drop (a * 2) = (us.drop a).flatMap unitBytes := by
  intro a
  induction a with
  | zero => intro us; simp
  | succ a ih =>
    intro us
    cases us with
    | nil => simp
    | cons u rest =>
      show (unitBytes u ++ rest.flatMap unitBytes).drop ((a + 1) * 2)
        = (rest.drop a).flatMap unitBytes
      have : (a + 1) * 2 = a * 2 + 2 := by ring
      rw [this, unitBytes]
      simp only [List.cons_append, List.nil_append, List.drop_succ_cons]
      exact ih rest

theorem take_flat_unitBytes :
    ∀ (a : Nat) (us : List Nat),
      (us.flatMap unitBytes).take (a * 2) = (us.take a).flatMap unitBytes := by
  intro a
  induction a with
  | zero => intro us; simp
  | succ a ih =>
    intro us
    cases us with
    | nil => simp
    | cons u rest =>
      show (unitBytes u ++ rest.flatMap unitBytes).take ((a + 1) * 2)
        = ((u :: rest).take (a + 1)).flatMap unitBytes
      have : (a + 1) * 2 = a * 2 + 2 := by ring
      rw [this, unitBytes]
      simp only [List.cons_append, List.nil_append, List.take_succ_cons,
        List.take_succ_cons]
      rw [ih rest]
      rfl

theorem pySlice_flat_unitBytes (us : List Nat) (a b : Nat) :
    pySlice (us.flatMap unitBytes) (a * 2) (b * 2)
      = (pySlice us a b).flatMap unitBytes := by
  rw [pySlice, pySlice, drop_flat_unitBytes]
  have : b * 2 - a * 2 = (b - a) * 2 := by omega
  rw [this, take_flat_unitBytes]

theorem remove_surrogates_flat_slice (us : List Nat) (a b : Nat) :
    remove_surrogates (pySlice (us.flatMap unitBytes) (a * 2) (b * 2))
      = unitsDecode (pySlice us a b) := by
  rw [remove_surrogates, pySlice_flat_unitBytes, bytesToUnits_flat]
  rfl

theorem unparse_entities_go_total (us : List Nat)
    (hwp : wellPairedB us = true) :
    ∀ (fuel : Nat) (es : List MessageEntity) (p q : Nat),
      es.length < fuel →
      wellPairedB (us.take p) = true →
      wellPairedB (us.take q) = true →
      (∀ e ∈ es, wellPairedB (us.take e.offset) = true
        ∧ wellPairedB (us.take (e.offset + e.length)) = true) →
      ∃ r, unparse_entities_go fuel (us.flatMap unitBytes) (p * 2) (q * 2) es
        = some r := by
  intro fuel
  induction fuel with
  | zero =>
    intro es p q hlen
    exact absurd hlen (Nat.not_lt_zero _)
  | succ fuel ih =>
    intro es p q hlen hp hq hes
    cases es with
    | nil =>
      rw [unparse_entities_go]
      by_cases hpq : p * 2 < q * 2
      · obtain ⟨r, hr⟩ := unitsDecode_pySlice_isSome us p q hwp hp hq
        rw [if_pos hpq, remove_surrogates_flat_slice, hr]
        exact ⟨_, rfl⟩
      · rw [if_neg hpq]
        exact ⟨_, rfl⟩
    | cons e rest =>
      have he := hes e (List.mem_cons_self e rest)
      have hrest : ∀ e' ∈ rest,
          wellPairedB (us.take e'.offset) = true
          ∧ wellPairedB (us.take (e'.offset + e'.length)) = true :=
        fun e' h' => hes e' (List.mem_cons_of_mem e h')
      have hrestlen : rest.length < fuel := by
        simp only [List.length_cons] at hlen
        omega
      simp only [unparse_entities_go]
      by_cases hskip : e.offset * 2 < p * 2
      · rw [if_pos hskip]
        exact ih rest p q hrestlen hp hq hrest
      · rw [if_neg hskip]
        have hmul : e.offset * 2 + e.length * 2 = (e.offset + e.length) * 2 := by
          ring
        have hlen2 : (us.flatMap unitBytes).length = us.length * 2 :=
          length_flat_unitBytes us
        obtain ⟨g, hg⟩ : ∃ g,
            (if e.offset * 2 > p * 2 then
              (remove_surrogates
                (pySlice (us.flatMap unitBytes) (p * 2) (e.offset * 2))).map
                (fun s => [quote s])
            else some []) = some g := by
          by_cases hgap : e.offset * 2 > p * 2
          · obtain ⟨r, hr⟩ :=
              unitsDecode_pySlice_isSome us p e.offset hwp hp he.1
            rw [if_pos hgap, remove_surrogates_flat_slice, hr]
            exact ⟨_, rfl⟩
          · rw [if_neg hgap]
            exact ⟨_, rfl⟩
        have hq2 : (if e.offset * 2 + e.length * 2 = 0 then
              (us.flatMap unitBytes).length
            else e.offset * 2 + e.length * 2)
            = (if e.offset + e.length = 0 then us.length
              else e.offset + e.length) * 2 := by
          by_cases hz : e.offset + e.length = 0
          · have h1 : e.offset * 2 + e.length * 2 = 0 := by omega
            simp [hz, h1, hlen2]
          · have h1 : ¬(e.offset * 2 + e.length * 2 = 0) := by omega
            simp [hz, h1, hmul]
        have hq' : wellPairedB
            (us.take (if e.offset + e.length = 0 then us.length
              else e.offset + e.length)) = true := by
          by_cases hz : e.offset + e.length = 0
          · rw [if_pos hz, List.take_length]
            exact hwp
          · rw [if_neg hz]
            exact he.2
        have hsublen :
            (rest.filter fun e2 =>
              decide (e2.offset * 2 < e.offset * 2 + e.length * 2)).length
              < fuel :=
          Nat.lt_of_le_of_lt (List.length_filter_le _ rest) hrestlen
        have hsubmem : ∀ e' ∈ (rest.filter fun e2 =>
              decide (e2.offset * 2 < e.offset * 2 + e.length * 2)),
            wellPairedB (us.take e'.offset) = true
            ∧ wellPairedB (us.take (e'.offset + e'.length)) = true :=
          fun e' h' => hrest e' (List.mem_of_mem_filter h')
        obtain ⟨inner, hinner⟩ :=
          ih (rest.filter fun e2 =>
              decide (e2.offset * 2 < e.offset * 2 + e.length * 2))
            e.offset
            (if e.offset + e.length = 0 then us.length else e.offset + e.length)
            hsublen he.1 hq' hsubmem
        obtain ⟨tl, htl⟩ :=
          ih rest (e.offset + e.length) q hrestlen he.2 hq hrest
        rw [hg, hq2, hinner, hmul, htl]
        exact ⟨_, rfl⟩

theorem mem_insertByOffset {x e : MessageEntity} :
    ∀ {l : List MessageEntity}, x ∈ insertByOffset e l ↔ x = e ∨ x ∈ l := by
  intro l
  induction l with
  | nil => simp [insertByOffset]
  | cons a as ih =>
    rw [insertByOffset]
    by_cases h : a.offset < e.offset
    · rw [if_pos h]
      simp only [List.mem_cons, ih]
      tauto
    · rw [if_neg h]
      simp only [List.mem_cons]

theorem mem_sortByOffset {x : MessageEntity} :
    ∀ {es : List MessageEntity}, x ∈ sortByOffset es ↔ x ∈ es := by
  intro es
  induction es with
  | nil => simp [sortByOffset]
  | cons a as ih =>
    show x ∈ insertByOffset a (sortByOffset as) ↔ x ∈ a :: as
    rw [mem_insertByOffset]
    simp only [List.mem_cons, ih]

/-- C1 (counterexample): on the single-emoji text with one Bold entity of
offset 0 and length 1 — non-negative and within the UTF-16 bounds of the
text — unparse raises: the length-1 span cuts the surrogate pair of the
emoji in half and the strict UTF-16-LE decode of the slice fails. -/
theorem unparse_raises_on_surrogate_split :
    unparse (strCodes "😀") (some [⟨EntityKind.bold, 0, 1⟩]) = none := by
  decide

/-- C1 (amended): for every text of valid Unicode scalar values and every
finite entity list, in any order and with any overlap or out-of-range
values, unparse returns a markup string and never raises, provided no
entity boundary — its offset or its offset plus length, in UTF-16 code
units — falls strictly inside a surrogate pair of the text. -/
theorem unparse_total_amended (text : List Nat) (es : List MessageEntity)
    (htext : ValidStr text)
    (hcuts : ∀ e ∈ es, cutOk text e.offset ∧ cutOk text (e.offset + e.length)) :
    ∃ s, unparse text (some es) = some s := by
  have hwp : wellPairedB (strUnits text) = true := wellPairedB_strUnits htext
  have hsorted : ∀ e ∈ (if es = [] then [] else sortByOffset es),
      wellPairedB ((strUnits text).take e.offset) = true
      ∧ wellPairedB ((strUnits text).take (e.offset + e.length)) = true := by
    intro e he
    by_cases hnil : es = []
    · rw [if_pos hnil] at he
      exact absurd he (List.not_mem_nil e)
    · rw [if_neg hnil] at he
      exact hcuts e (mem_sortByOffset.mp he)
  have h0 : wellPairedB ((strUnits text).take 0) = true := rfl
  have hL : wellPairedB ((strUnits text).take (strUnits text).length) = true := by
    rw [List.take_length]
    exact hwp
  obtain ⟨r, hr⟩ := unparse_entities_go_total (strUnits text) hwp
    ((if es = [] then [] else sortByOffset es).length + 1)
    (if es = [] then [] else sortByOffset es)
    0 (strUnits text).length
    (Nat.lt_succ_self _) h0 hL hsorted
  refine ⟨joinL r, ?_⟩
  show (unparse_entities_go
      ((if es = [] then [] else sortByOffset es).length + 1)
      (add_surrogates text) 0 (add_surrogates text).length
      (if es = [] then [] else sortByOffset es)).map joinL
    = some (joinL r)
  have hflat : add_surrogates text = (strUnits text).flatMap unitBytes := rfl
  have hzero : (0 : Nat) = 0 * 2 := rfl
  rw [hflat, hzero, length_flat_unitBytes, hr]
  rfl

/-- Witness for C1 (amended) at a concrete astral-character text whose
entity boundaries respect the surrogate pair. -/
theorem unparse_total_amended_witness :
    ∃ s, unparse (strCodes "a😀b") (some [⟨EntityKind.bold, 1, 2⟩]) = some s :=
  unparse_total_amended (strCodes "a😀b") [⟨EntityKind.bold, 1, 2⟩]
    (by decide) (by decide)

/-! ## Parser handler properties -/

theorem assocPop_of_none {α : Type} :
    ∀ (m : List (List Nat × α)) (k : List Nat),
      assocGet m k = none → assocPop m k = (none, m) := by
  intro m
  induction m with
  | nil => intro k _; rfl
  | cons kv rest ih =>
    intro k hk
    rw [assocGet] at hk
    by_cases hkk : kv.1 = k
    · rw [if_pos hkk] at hk
      exact absurd hk (by simp)
    · rw [if_neg hkk] at hk
      simp only [assocPop, if_neg hkk, ih k hk]

/-- C9: handle_endtag never raises on malformed nesting: it is total (the
caught IndexError makes popping past an empty stack a no-op), the
accumulated text is always preserved, previously closed entities stay a
prefix of the result, and when no builder is open for the tag name, no
entity is appended and the builder map is untouched. -/
theorem handle_endtag_malformed_noop
    (st : HTMLToTelegramParser) (tag : List Nat) :
    (handle_endtag st tag).text = st.text
    ∧ st.entities <+: (handle_endtag st tag).entities
    ∧ (assocGet st.building_entities tag = none →
        (handle_endtag st tag).entities = st.entities
        ∧ (handle_endtag st tag).building_entities = st.building_entities) := by
  refine ⟨?_, ?_, ?_⟩
  · cases hcase : (assocPop st.building_entities tag).1 <;>
      simp [handle_endtag, hcase]
  · cases hcase : (assocPop st.building_entities tag).1 <;>
      simp [handle_endtag, hcase, List.prefix_append]
  · intro hb
    have hpop := assocPop_of_none st.building_entities tag hb
    have h1 : (assocPop st.building_entities tag).1 = none := by rw [hpop]
    have h2 : (assocPop st.building_entities tag).2 = st.building_entities := by
      rw [hpop]
    constructor <;> simp [handle_endtag, h1, h2]

/-- Witness for C9: an end tag arriving with an empty open-tag stack and no
open builder leaves the closed entities and the builder map unchanged. -/
theorem handle_endtag_malformed_noop_witness :
    (handle_endtag
        ⟨strCodes "hi", [⟨EntityKind.bold, 0, 1⟩], [], [], []⟩
        (strCodes "b")).entities = [⟨EntityKind.bold, 0, 1⟩]
    ∧ (handle_endtag
        ⟨strCodes "hi", [⟨EntityKind.bold, 0, 1⟩], [], [], []⟩
        (strCodes "b")).building_entities = [] :=
  (handle_endtag_malformed_noop
    ⟨strCodes "hi", [⟨EntityKind.bold, 0, 1⟩], [], [], []⟩
    (strCodes "b")).2.2 (by decide)

theorem setLanguage_offset (e : MessageEntity) (l : List Nat) :
    (setLanguage e l).offset = e.offset := by
  cases e with
  | mk kind offset length => cases kind <;> rfl

theorem setLanguage_length (e : MessageEntity) (l : List Nat) :
    (setLanguage e l).length = e.length := by
  cases e with
  | mk kind offset length => cases kind <;> rfl

theorem bSetLang_keys (m : List (List Nat × MessageEntity)) (l : List Nat) :
    (bSetLang m l).map Prod.fst = m.map Prod.fst := by
  induction m with
  | nil => rfl
  | cons kv rest ih =>
    rw [bSetLang, List.map_cons, List.map_cons, List.map_cons]
    by_cases hk : kv.1 = strCodes "pre"
    · rw [if_pos hk]
      show (kv.1, setLanguage kv.2 l).1 :: (bSetLang rest l).map Prod.fst
        = kv.1 :: rest.map Prod.fst
      rw [ih]
    · rw [if_neg hk]
      show kv.1 :: (bSetLang rest l).map Prod.fst = kv.1 :: rest.map Prod.fst
      rw [ih]

theorem assocGet_bSetLang (m : List (List Nat × MessageEntity))
    (l : List Nat) (k : List Nat) :
    (assocGet (bSetLang m l) k).map (fun e => (e.offset, e.length))
      = (assocGet m k).map (fun e => (e.offset, e.length)) := by
  induction m with
  | nil => rfl
  | cons kv rest ih =>
    by_cases hk : kv.1 = strCodes "pre"
    · show (assocGet ((if kv.1 = strCodes "pre" then (kv.1, setLanguage kv.2 l)
          else kv) :: bSetLang rest l) k).map (fun e => (e.offset, e.length))
        = _
      rw [if_pos hk, assocGet, assocGet]
      by_cases hkk : kv.1 = k
      · rw [if_pos hkk, if_pos hkk]
        simp [setLanguage_offset, setLanguage_length]
      · rw [if_neg hkk, if_neg hkk]
        exact ih
    · show (assocGet ((if kv.1 = strCodes "pre" then (kv.1, setLanguage kv.2 l)
          else kv) :: bSetLang rest l) k).map (fun e => (e.offset, e.length))
        = _
      rw [if_neg hk, assocGet, assocGet]
      by_cases hkk : kv.1 = k
      · rw [if_pos hkk, if_pos hkk]
      · rw [if_neg hkk, if_neg hkk]
        exact ih

theorem resolve_branch_same {st st' : HTMLToTelegramParser}
    {k mk : Option EntityKind}
    (h : (some (st, k) : Option (HTMLToTelegramParser × Option EntityKind))
      = some (st', mk)) :
    st'.text = st.text
    ∧ st'.entities = st.entities
    ∧ st'.building_entities.map Prod.fst = st.building_entities.map Prod.fst
    ∧ ∀ k, (assocGet st'.building_entities k).map (fun e => (e.offset, e.length))
        = (assocGet st.building_entities k).map (fun e => (e.offset, e.length)) := by
  simp only [Option.some.injEq, Prod.mk.injEq] at h
  obtain ⟨h1, _⟩ := h
  subst h1
  exact ⟨rfl, rfl, rfl, fun _ => rfl⟩

theorem resolve_branch_meta {st st' : HTMLToTelegramParser}
    {m : Option (List Nat)} {k mk : Option EntityKind}
    (h : (some (setMetaHead st m, k) :
        Option (HTMLToTelegramParser × Option EntityKind)) = some (st', mk)) :
    st'.text = st.text
    ∧ st'.entities = st.entities
    ∧ st'.building_entities.map Prod.fst = st.building_entities.map Prod.fst
    ∧ ∀ k, (assocGet st'.building_entities k).map (fun e => (e.offset, e.length))
        = (assocGet st.building_entities k).map (fun e => (e.offset, e.length)) := by
  simp only [Option.some.injEq, Prod.mk.injEq] at h
  obtain ⟨h1, _⟩ := h
  subst h1
  exact ⟨rfl, rfl, rfl, fun _ => rfl⟩

theorem resolve_branch_lang {st st' : HTMLToTelegramParser}
    {l : List Nat} {k mk : Option EntityKind}
    (h : (some ({ st with building_entities := bSetLang st.building_entities l },
        k) : Option (HTMLToTelegramParser × Option EntityKind)) = some (st', mk)) :
    st'.text = st.text
    ∧ st'.entities = st.entities
    ∧ st'.building_entities.map Prod.fst = st.building_entities.map Prod.fst
    ∧ ∀ k, (assocGet st'.building_entities k).map (fun e => (e.offset, e.length))
        = (assocGet st.building_entities k).map (fun e => (e.offset, e.length)) := by
  simp only [Option.some.injEq, Prod.mk.injEq] at h
  obtain ⟨h1, _⟩ := h
  subst h1
  exact ⟨rfl, rfl, bSetLang_keys _ _, fun k => assocGet_bSetLang _ _ k⟩

theorem starttag_resolve_preserves (st : HTMLToTelegramParser)
    (tag : List Nat) (attrs : Attrs) (starttag_text : List Nat)
    (st' : HTMLToTelegramParser) (mk : Option EntityKind)
    (h : starttag_resolve st tag attrs starttag_text = some (st', mk)) :
    st'.text = st.text
    ∧ st'.entities = st.entities
    ∧ st'.building_entities.map Prod.fst = st.building_entities.map Prod.fst
    ∧ ∀ k, (assocGet st'.building_entities k).map (fun e => (e.offset, e.length))
        = (assocGet st.building_entities k).map (fun e => (e.offset, e.length)) := by
  unfold starttag_resolve at h
  by_cases c1 : tag = strCodes "strong" ∨ tag = strCodes "b"
  · rw [if_pos c1] at h
    exact resolve_branch_same h
  rw [if_neg c1] at h
  by_cases c2 : tag = strCodes "em" ∨ tag = strCodes "i"
  · rw [if_pos c2] at h
    exact resolve_branch_same h
  rw [if_neg c2] at h
  by_cases c3 : tag = strCodes "tg-spoiler"
  · rw [if_pos c3] at h
    exact resolve_branch_same h
  rw [if_neg c3] at h
  by_cases c4 : tag = strCodes "u"
  · rw [if_pos c4] at h
    exact resolve_branch_same h
  rw [if_neg c4] at h
  by_cases c5 : tag = strCodes "del" ∨ tag = strCodes "s"
  · rw [if_pos c5] at h
    exact resolve_branch_same h
  rw [if_neg c5] at h
  by_cases c6 : tag = strCodes "blockquote"
  · rw [if_pos c6] at h
    exact resolve_branch_same h
  rw [if_neg c6] at h
  by_cases c7 : tag = strCodes "code"
  · rw [if_pos c7] at h
    cases hpre : assocGet st.building_entities (strCodes "pre") with
    | some v =>
      rw [hpre] at h
      cases hcls : dictGet attrs (strCodes "class") with
      | none =>
        rw [hcls] at h
        exact resolve_branch_same h
      | some vc =>
        rw [hcls] at h
        cases vc with
        | none => exact absurd h (by simp)
        | some cls => exact resolve_branch_lang h
    | none =>
      rw [hpre] at h
      exact resolve_branch_same h
  rw [if_neg c7] at h
  by_cases c8 : tag = strCodes "pre"
  · rw [if_pos c8] at h
    exact resolve_branch_same h
  rw [if_neg c8] at h
  by_cases c9 : tag = strCodes "a"
  · rw [if_pos c9] at h
    cases hhref : dictGet attrs (strCodes "href") with
    | none =>
      rw [hhref] at h
      exact resolve_branch_same h
    | some vh =>
      rw [hhref] at h
      cases vh with
      | none => exact absurd h (by simp)
      | some href =>
        replace h : (if (strCodes "mailto:").isPrefixOf href = true then
            some (setMetaHead st (some (List.drop 7 href)),
              some EntityKind.email)
          else if starttag_text = href then
            some (setMetaHead st (some href), some EntityKind.url)
          else
            match del_surrogate href with
            | none => none
            | some u => some (setMetaHead st none,
                some (EntityKind.textUrl u))) = some (st', mk) := h
        by_cases cm : (strCodes "mailto:").isPrefixOf href = true
        · rw [if_pos cm] at h
          exact resolve_branch_meta h
        rw [if_neg cm] at h
        by_cases cu : starttag_text = href
        · rw [if_pos cu] at h
          exact resolve_branch_meta h
        rw [if_neg cu] at h
        cases hds : del_surrogate href with
        | none =>
          rw [hds] at h
          exact absurd h (by simp)
        | some u =>
          rw [hds] at h
          exact resolve_branch_meta h
  rw [if_neg c9] at h
  by_cases c10 : tag = strCodes "emoji" ∧ CUSTOM_EMOJIS = true
  · rw [if_pos c10] at h
    cases hdoc : dictGet attrs (strCodes "document_id") with
    | none =>
      rw [hdoc] at h
      exact absurd h (by simp)
    | some vd =>
      rw [hdoc] at h
      cases vd with
      | none => exact absurd h (by simp)
      | some v =>
        replace h : (match pyInt v with
          | none => none
          | some n => some (st, some (EntityKind.customEmoji n)))
            = some (st', mk) := h
        cases hint : pyInt v with
        | none =>
          rw [hint] at h
          exact absurd h (by simp)
        | some n =>
          rw [hint] at h
          exact resolve_branch_same h
  rw [if_neg c10] at h
  exact resolve_branch_same h

/-- C8: re-opening a tag name that already has an open builder creates no
new builder and no entity: when handle_starttag succeeds on such a tag, the
builder keys are unchanged, the builder recorded under the tag keeps its
offset and accumulated length, and the closed-entity list is untouched. -/
theorem handle_starttag_reopen_noop
    (st : HTMLToTelegramParser) (tag : List Nat) (attrs : Attrs)
    (starttag_text : List Nat) (st' : HTMLToTelegramParser)
    (e₀ : MessageEntity)
    (hopen : assocGet st.building_entities tag = some e₀)
    (h : handle_starttag st tag attrs starttag_text = some st') :
    st'.building_entities.map Prod.fst = st.building_entities.map Prod.fst
    ∧ (∃ e', assocGet st'.building_entities tag = some e'
        ∧ e'.offset = e₀.offset ∧ e'.length = e₀.length)
    ∧ st'.entities = st.entities := by
  rw [handle_starttag] at h
  cases hres : starttag_resolve
      { st with
        open_tags := tag :: st.open_tags,
        open_tags_meta := none :: st.open_tags_meta }
      tag attrs starttag_text with
  | none =>
    rw [hres] at h
    exact absurd h (by simp)
  | some pr =>
    obtain ⟨st₂, mk⟩ := pr
    rw [hres] at h
    have hpres := starttag_resolve_preserves _ tag attrs starttag_text st₂ mk hres
    have hmap := hpres.2.2.2 tag
    rw [show ({ st with
          open_tags := tag :: st.open_tags,
          open_tags_meta := none :: st.open_tags_meta } :
        HTMLToTelegramParser).building_entities = st.building_entities
      from rfl, hopen] at hmap
    obtain ⟨e', hg, heo, hel⟩ : ∃ e', assocGet st₂.building_entities tag = some e'
        ∧ e'.offset = e₀.offset ∧ e'.length = e₀.length := by
      cases hgc : assocGet st₂.building_entities tag with
      | none =>
        rw [hgc] at hmap
        exact absurd hmap (by simp)
      | some e' =>
        rw [hgc] at hmap
        simp only [Option.map_some', Option.some.injEq, Prod.mk.injEq] at hmap
        exact ⟨e', rfl, hmap.1, hmap.2⟩
    have hst' : st' = st₂ := by
      cases mk with
      | none =>
        replace h : (some st₂ : Option HTMLToTelegramParser) = some st' := h
        simp only [Option.some.injEq] at h
        exact h.symm
      | some kind =>
        replace h : (if assocGet st₂.building_entities tag = none then
            some { st₂ with
              building_entities := st₂.building_entities
                ++ [(tag, ⟨kind, st₂.text.length, 0⟩)] }
          else some st₂) = some st' := h
        rw [if_neg (by rw [hg]; simp)] at h
        simp only [Option.some.injEq] at h
        exact h.symm
    subst hst'
    refine ⟨?_, ⟨e', hg, heo, hel⟩, ?_⟩
    · rw [hpres.2.2.1]
    · rw [hpres.2.1]

/-- Witness for C8: re-opening a bold tag whose builder is already open
leaves the builder map keys, the recorded offset and length, and the closed
entities unchanged. -/
theorem handle_starttag_reopen_noop_witness :
    ([(strCodes "b", (⟨EntityKind.bold, 0, 1⟩ : MessageEntity))].map Prod.fst
        = [(strCodes "b", (⟨EntityKind.bold, 0, 1⟩ : MessageEntity))].map Prod.fst)
    ∧ (∃ e', assocGet [(strCodes "b", (⟨EntityKind.bold, 0, 1⟩ : MessageEntity))]
          (strCodes "b") = some e'
        ∧ e'.offset = 0 ∧ e'.length = 1)
    ∧ ([] : List MessageEntity) = [] := by
  exact handle_starttag_reopen_noop
    ⟨strCodes "x", [], [(strCodes "b", ⟨EntityKind.bold, 0, 1⟩)],
      [strCodes "b"], [none]⟩
    (strCodes "b") [] (strCodes "<b>")
    ⟨strCodes "x", [], [(strCodes "b", ⟨EntityKind.bold, 0, 1⟩)],
      [strCodes "b", strCodes "b"], [none, none]⟩
    ⟨EntityKind.bold, 0, 1⟩ (by decide) (by decide)

end HikkaTL
